import Mathlib

/-!
Verification of the format-selection and stream-relay logic of
`src/server.js` (twebservices).

The JavaScript source is shallowly embedded: every definition below is a
direct translation of the corresponding lines of `server.js`.  JavaScript
values that may be `undefined`/`null` are modelled as `Option`; JavaScript
truthiness on strings (falsy: absent, `""`) and on numbers (falsy: absent,
`0`) is modelled explicitly; `a || b` on object-or-undefined values is
modelled by `jsOr`.  The V8 `Array.prototype.sort` with comparator
`(b.height||0) - (a.height||0)` is (per the ECMAScript spec) the unique
stable descending-by-key permutation; it is embedded as a stable
descending insertion sort (`sortDesc`), whose sortedness, stability and
permutation properties are proved below.
-/

namespace Server

/-- JavaScript `a || b` where `a` is a value that is either absent
(falsy) or an object (truthy). -/
def jsOr {α : Type} : Option α → Option α → Option α
  | some x, _ => some x
  | none, b => b

/-- JavaScript truthiness filter for an optional string: `undefined`,
`null` and `""` are falsy. -/
def truthyStr : Option String → Option String
  | some s => if s = "" then none else some s
  | none => none

/-- JavaScript truthiness filter for an optional number: `undefined`,
`null` and `0` are falsy. -/
def truthyInt : Option Int → Option Int
  | some n => if n = 0 then none else some n
  | none => none

/-- RawFormat: one entry of the extractor's `formats` array
(server.js, input of `normalizeFormats`, lines 92-106).  Every field may
be absent. -/
structure RawFormat where
  format_id : Option String := none
  format : Option String := none
  format_note : Option String := none
  height : Option Int := none
  ext : Option String := none
  filesize : Option Int := none
  filesize_approx : Option Int := none
  url : Option String := none
  protocol : Option String := none
  http_headers : Option (List (String × String)) := none
  acodec : Option String := none
  vcodec : Option String := none
deriving DecidableEq

/-- NormalizedFormat: the record built by `normalizeFormats`
(server.js lines 94-105). -/
structure NormalizedFormat where
  format_id : Option String
  quality : String
  height : Option Int
  ext : String
  filesize : Option Int
  url : Option String
  protocol : Option String
  http_headers : List (String × String)
  acodec : Option String
  vcodec : Option String
deriving DecidableEq

/-- Translation of the mapping function inside `normalizeFormats`
(server.js lines 94-105):
`format_id: f.format_id || f.format`,
`quality: f.format_note || (f.height ? height+"p" : f.format_id || "")`,
`height: f.height || null`, `ext: f.ext || ""`,
`filesize: f.filesize || f.filesize_approx || null`,
`url`, `protocol` passed through, `http_headers: f.http_headers || {}`,
`acodec: f.acodec || null`, `vcodec: f.vcodec || null`. -/
def normalizeFormat (f : RawFormat) : NormalizedFormat where
  format_id := jsOr (truthyStr f.format_id) f.format
  quality :=
    match truthyStr f.format_note with
    | some s => s
    | none =>
      match truthyInt f.height with
      | some n => toString n ++ "p"
      | none => (truthyStr f.format_id).getD ""
  height := truthyInt f.height
  ext := (truthyStr f.ext).getD ""
  filesize := jsOr (truthyInt f.filesize) (truthyInt f.filesize_approx)
  url := f.url
  protocol := f.protocol
  http_headers := f.http_headers.getD []
  acodec := truthyStr f.acodec
  vcodec := truthyStr f.vcodec

/-- Translation of `normalizeFormats` (server.js lines 92-106).  The
non-array guard of line 93 corresponds to the empty list. -/
def normalizeFormats (fs : List RawFormat) : List NormalizedFormat :=
  fs.map normalizeFormat

/-- Filter predicate of `videoCombined` (server.js lines 138-140):
`f.vcodec !== "none" && f.acodec !== "none"`. -/
def isCombinedB (f : NormalizedFormat) : Bool :=
  decide (f.vcodec ≠ some "none") && decide (f.acodec ≠ some "none")

/-- JavaScript falsiness of a string-or-null value (`!x`). -/
def jsFalsyStr (o : Option String) : Bool :=
  decide (o = none) || decide (o = some "")

/-- Filter predicate of `videoOnly` (server.js lines 141-143):
`f.vcodec !== "none" && (!f.acodec || f.acodec === "none")`. -/
def isVideoOnlyB (f : NormalizedFormat) : Bool :=
  decide (f.vcodec ≠ some "none") && (jsFalsyStr f.acodec || decide (f.acodec = some "none"))

/-- Filter predicate of `audioOnly` (server.js lines 144-146):
`f.acodec !== "none" && (f.vcodec === "none" || !f.vcodec)`. -/
def isAudioOnlyB (f : NormalizedFormat) : Bool :=
  decide (f.acodec ≠ some "none") && (decide (f.vcodec = some "none") || jsFalsyStr f.vcodec)

/-- The `videoCombined` bucket (server.js lines 138-140). -/
def videoCombined (fs : List NormalizedFormat) : List NormalizedFormat :=
  fs.filter isCombinedB

/-- The `videoOnly` bucket (server.js lines 141-143). -/
def videoOnly (fs : List NormalizedFormat) : List NormalizedFormat :=
  fs.filter isVideoOnlyB

/-- The `audioOnly` bucket (server.js lines 144-146). -/
def audioOnly (fs : List NormalizedFormat) : List NormalizedFormat :=
  fs.filter isAudioOnlyB

/-- Sort key used by every sort in server.js: `f.height || 0`. -/
def hKey (f : NormalizedFormat) : Int :=
  f.height.getD 0

/-- Stable descending insertion: places `a` before the first element
whose key is `≤ key a`, so elements with strictly greater key stay in
front and elements with equal key stay behind `a` only when they
originally preceded it. -/
def insertDesc {α : Type} (key : α → Int) (a : α) : List α → List α
  | [] => [a]
  | b :: l => if key b ≤ key a then a :: b :: l else b :: insertDesc key a l

/-- Stable descending-by-key sort: the unique stable sort, hence the
embedding of `arr.slice().sort((a, b) => keyB - keyA)` (V8 sort is
stable per the ECMAScript spec). -/
def sortDesc {α : Type} (key : α → Int) : List α → List α
  | [] => []
  | a :: l => insertDesc key a (sortDesc key l)

/-- Translation of `sortByHeightDesc` (server.js lines 149-151). -/
def sortByHeightDesc (l : List NormalizedFormat) : List NormalizedFormat :=
  sortDesc hKey l

/-- Translation of `directPlayable` (server.js lines 157-161):
`combinedSorted[0] || videoSorted[0] || formats[0] || null`. -/
def directPlayable (fs : List NormalizedFormat) : Option NormalizedFormat :=
  jsOr (sortByHeightDesc (videoCombined fs)).head?
    (jsOr (sortByHeightDesc (videoOnly fs)).head? fs.head?)

/-- Translation of the `formats` field of the response
(server.js lines 169-173): up to 8 sorted combined, then up to 8 sorted
video-only, then up to 4 audio-only entries. -/
def responseFormats (fs : List NormalizedFormat) : List NormalizedFormat :=
  (sortByHeightDesc (videoCombined fs)).take 8
    ++ (sortByHeightDesc (videoOnly fs)).take 8
    ++ (audioOnly fs).take 4

/-- Filter predicate `f.vcodec !== "none"` of the best-effort download
fallback (server.js line 247). -/
def hasVideoB (f : NormalizedFormat) : Bool :=
  decide (f.vcodec ≠ some "none")

/-- Translation of the best-effort branch of `/api/download`
(server.js lines 241-249): best combined, else best `vcodec !== "none"`;
note there is no `formats[0]` fallback here, unlike `directPlayable`. -/
def bestEffortDownload (fs : List NormalizedFormat) : Option NormalizedFormat :=
  jsOr (sortDesc hKey (fs.filter isCombinedB)).head?
    (sortDesc hKey (fs.filter hasVideoB)).head?

/-- Filter predicate of the capped combined search (server.js lines
222-228): `f.height && f.height <= maxH && f.vcodec !== "none" &&
f.acodec !== "none"`. -/
def cappedCombinedPred (maxH : Int) (f : NormalizedFormat) : Bool :=
  match truthyInt f.height with
  | none => false
  | some n => decide (n ≤ maxH) && decide (f.vcodec ≠ some "none") && decide (f.acodec ≠ some "none")

/-- Filter predicate of the capped video fallback (server.js lines
233-238): `f.height && f.height <= maxH && f.vcodec !== "none"`. -/
def cappedVideoPred (maxH : Int) (f : NormalizedFormat) : Bool :=
  match truthyInt f.height with
  | none => false
  | some n => decide (n ≤ maxH) && decide (f.vcodec ≠ some "none")

/-- Translation of the quality-capped branch of `/api/download`
(server.js lines 219-240). -/
def qualityCapped (fs : List NormalizedFormat) (maxH : Int) : Option NormalizedFormat :=
  jsOr (sortDesc hKey (fs.filter (cappedCombinedPred maxH))).head?
    (sortDesc hKey (fs.filter (cappedVideoPred maxH))).head?

/-- Translation of the quality dispatch of `/api/download`
(server.js line 219): `if (quality && quality !== "best")` selects the
quality-capped branch (with `maxH = Number(quality)`, the numeric
conversion abstracted as `parseNum`), every other case the best-effort
branch. -/
def downloadChosen (parseNum : String → Int) (quality : Option String)
    (fs : List NormalizedFormat) : Option NormalizedFormat :=
  match quality with
  | some q =>
    if q ≠ "" ∧ q ≠ "best" then qualityCapped fs (parseNum q)
    else bestEffortDownload fs
  | none => bestEffortDownload fs

/-- Translation of the response decision of `/api/download`
(server.js lines 251-261): `if (!chosen || !chosen.url)` respond 500,
otherwise respond 200 with the chosen candidate. -/
def downloadStatus (chosen : Option NormalizedFormat) : Nat :=
  match chosen with
  | none => 500
  | some f => if jsFalsyStr f.url then 500 else 200

/-- Translation of the catch branch of `/api/extract`
(server.js lines 187-198): status 408 when the extraction process was
killed by its timeout (`error.killed`), 500 otherwise. -/
def extractCatchStatus (killed : Bool) : Nat :=
  if killed then 408 else 500

/-- Translation of the catch branch of `/api/download`
(server.js lines 262-268): status 500 unconditionally. -/
def downloadCatchStatus (killed : Bool) : Nat :=
  match killed with
  | _ => 500

/-- Specification-side selector: the first element of the list attaining
the maximal key, i.e. "the highest-height format" with the spec's
stable tie-break (earlier of equal heights wins). -/
def highestFirst {α : Type} (key : α → Int) : List α → Option α
  | [] => none
  | a :: l =>
    match highestFirst key l with
    | none => some a
    | some m => if key a < key m then some m else some a

/-! Embedding of the `/api/stream` relay (server.js lines 272-332).
The two external collaborators of the handler are passed as functions:
`parseUrlOk` models whether `new URL(remoteUrl)` succeeds (line 291) and
`decodeHeaders` models the base64 + JSON decoding of the `h` query
parameter (line 283), returning `none` on a decoding failure.  The
upstream fetch is represented by its observed response
(status, header list). -/

/-- An inbound `/api/stream` request: the two query parameters and the
inbound request headers (header names lowercased, as Node delivers
them). -/
structure StreamReq where
  remoteUrl : Option String
  hParam : Option String
  reqHeaders : List (String × String)
deriving DecidableEq

/-- Observable outcome of the relay handler: response status, whether
the outbound fetch was started, the header object passed to the fetch
(present exactly when the fetch was started), and the headers copied to
the client response. -/
structure StreamOutcome where
  status : Nat
  fetchCalled : Bool
  outboundHeaders : Option (List (String × String))
  responseHeaders : List (String × String)
deriving DecidableEq

/-- The hop-by-hop header list of server.js lines 306-315. -/
def hopByHop : List String :=
  ["connection", "keep-alive", "proxy-authenticate", "proxy-authorization",
   "te", "trailers", "transfer-encoding", "upgrade"]

/-- Translation of the upstream-header copy loop (server.js lines
305-319): keep every upstream header whose lowercased name is not
hop-by-hop. -/
def relayResponseHeaders (upstreamHeaders : List (String × String)) : List (String × String) :=
  upstreamHeaders.filter (fun p => !(hopByHop.contains p.1.toLower))

/-- One JavaScript property assignment `target[k] = v` on an object
modelled as an ordered association list: an existing key keeps its
position and gets the new value, a new key is appended. -/
def assignOne (m : List (String × String)) (kv : String × String) : List (String × String) :=
  if m.any (fun p => p.1 == kv.1) then
    m.map (fun p => if p.1 == kv.1 then (p.1, kv.2) else p)
  else m ++ [kv]

/-- JavaScript `Object.assign(target, src)`: assign every property of
`src` onto `target` in order. -/
def objAssign (target src : List (String × String)) : List (String × String) :=
  src.foldl assignOne target

/-- The decoded extra-header bundle (server.js lines 280-287):
`{}` when `h` is absent or falsy, the decoded object when decoding
succeeds, and `{}` again when decoding throws. -/
def extraHeadersOf (decodeHeaders : String → Option (List (String × String)))
    (req : StreamReq) : List (String × String) :=
  match req.hParam with
  | none => []
  | some s => if s = "" then [] else (decodeHeaders s).getD []

/-- Translation of the forward-header construction (server.js lines
293-295): start from `{}`, add `range` when the inbound request carries
a truthy `range` header, then `Object.assign` the decoded extras. -/
def forwardHeaders (decodeHeaders : String → Option (List (String × String)))
    (req : StreamReq) : List (String × String) :=
  objAssign
    (match List.lookup "range" req.reqHeaders with
     | some v => if v = "" then [] else [("range", v)]
     | none => [])
    (extraHeadersOf decodeHeaders req)

/-- Translation of the `/api/stream` handler control flow (server.js
lines 272-332): missing or falsy `remoteUrl` responds 400 before
anything else; a `remoteUrl` rejected by the URL parser throws into the
catch block, which responds 500, still before any fetch; otherwise the
fetch is issued with the forwarded headers and the upstream status and
filtered upstream headers are mirrored to the client. -/
def streamHandler (parseUrlOk : String → Bool)
    (decodeHeaders : String → Option (List (String × String)))
    (upstreamStatus : Nat) (upstreamHeaders : List (String × String))
    (req : StreamReq) : StreamOutcome :=
  match req.remoteUrl with
  | none => ⟨400, false, none, []⟩
  | some u =>
    if u = "" then ⟨400, false, none, []⟩
    else if parseUrlOk u then
      ⟨upstreamStatus, true, some (forwardHeaders decodeHeaders req),
        relayResponseHeaders upstreamHeaders⟩
    else ⟨500, false, none, []⟩

/-- Last-occurrence lookup in an association list: the value a sequence
of JavaScript assignments of the listed properties leaves behind. -/
def lookupLast (k : String) (l : List (String × String)) : Option String :=
  List.lookup k l.reverse

/-- Specification-side height test of the quality-capped policy: the
format has a known (truthy) height and it is at most `maxH`. -/
def heightAtMost (maxH : Int) (f : NormalizedFormat) : Bool :=
  match truthyInt f.height with
  | none => false
  | some n => decide (n ≤ maxH)

/-- Specification-side codec-presence predicate from the spec invariant:
the field is present and not the sentinel `"none"`. -/
def presentNotNone (o : Option String) : Prop :=
  ∃ s, o = some s ∧ s ≠ "none"

/-! Concrete fixtures used by counterexamples and witnesses. -/

/-- Fixture: a raw format carrying no codec information at all. -/
def rawNoCodec : RawFormat := { url := some "u0" }

/-- Fixture: an audio-only raw format (`vcodec: "none"`). -/
def rawAudioOnly : RawFormat :=
  { vcodec := some "none", acodec := some "mp4a", url := some "ua" }

/-- Fixture: a combined raw format at height 360. -/
def raw360 : RawFormat :=
  { vcodec := some "avc1", acodec := some "mp4a", height := some 360, url := some "u360" }

/-- Fixture: a combined raw format at height 480. -/
def raw480 : RawFormat :=
  { vcodec := some "avc1", acodec := some "mp4a", height := some 480, url := some "u480" }

/-- Fixture: a combined raw format at height 50. -/
def raw50 : RawFormat :=
  { vcodec := some "avc1", acodec := some "mp4a", height := some 50, url := some "u50" }

/-- Fixture: a combined raw format with no height field. -/
def rawNoHeight : RawFormat :=
  { vcodec := some "avc1", acodec := some "mp4a", url := some "unh" }

/-- Fixture: a stream request with no `remoteUrl`. -/
def reqNoUrl : StreamReq := ⟨none, none, []⟩

/-- Fixture: a stream request whose `remoteUrl` the URL parser rejects
(e.g. the string `"http://["`, which `new URL` refuses). -/
def reqBadUrl : StreamReq := ⟨some "http://[", none, []⟩

/-- Fixture: a second unparseable-`remoteUrl` stream request. -/
def reqMalformed : StreamReq := ⟨some "://bad", none, []⟩

/-- Fixture: a stream request with a `range` header, an `h` parameter
and an unrelated inbound header. -/
def reqRangeA : StreamReq :=
  ⟨some "http://m", some "hv", [("range", "bytes=0-1"), ("user-agent", "ua1")]⟩

/-- Fixture: as `reqRangeA` but with different unrelated inbound
headers. -/
def reqRangeB : StreamReq :=
  ⟨some "http://m", some "hv", [("accept", "x"), ("range", "bytes=0-1")]⟩

/-- Fixture: a header decoder whose bundle carries its own `range` key
plus an authorization header. -/
def decodeFix : String → Option (List (String × String)) :=
  fun _ => some [("range", "bytes=5-9"), ("authorization", "tok")]

/-! Lemmas about the stable descending sort. -/

theorem insertDesc_ne_nil {α : Type} (key : α → Int) (a : α) (l : List α) :
    insertDesc key a l ≠ [] := by
  cases l with
  | nil => simp [insertDesc]
  | cons b l =>
    simp only [insertDesc]
    split <;> simp

theorem sortDesc_eq_nil_iff {α : Type} (key : α → Int) (l : List α) :
    sortDesc key l = [] ↔ l = [] := by
  cases l with
  | nil => simp [sortDesc]
  | cons a l =>
    simp only [sortDesc]
    exact ⟨fun h => absurd h (insertDesc_ne_nil key a _), fun h => by simp at h⟩

theorem mem_insertDesc {α : Type} (key : α → Int) (a x : α) (l : List α) :
    x ∈ insertDesc key a l ↔ x = a ∨ x ∈ l := by
  induction l with
  | nil => simp [insertDesc]
  | cons b l ih =>
    simp only [insertDesc]
    split
    · simp
    · simp only [List.mem_cons, ih]
      tauto

theorem mem_sortDesc {α : Type} (key : α → Int) (x : α) (l : List α) :
    x ∈ sortDesc key l ↔ x ∈ l := by
  induction l with
  | nil => simp [sortDesc]
  | cons a l ih =>
    simp only [sortDesc, mem_insertDesc, List.mem_cons, ih]

theorem pairwise_insertDesc {α : Type} (key : α → Int) (a : α) (l : List α)
    (h : l.Pairwise (fun x y => key y ≤ key x)) :
    (insertDesc key a l).Pairwise (fun x y => key y ≤ key x) := by
  induction l with
  | nil => simp [insertDesc]
  | cons b l ih =>
    simp only [insertDesc]
    split
    · rename_i hba
      refine List.Pairwise.cons ?_ h
      intro x hx
      rcases List.mem_cons.mp hx with hxb | hxl
      · exact hxb ▸ hba
      · exact le_trans ((List.pairwise_cons.mp h).1 x hxl) hba
    · rename_i hba
      have hab : key a ≤ key b := le_of_lt (lt_of_not_le hba)
      rcases List.pairwise_cons.mp h with ⟨hb, hl⟩
      refine List.Pairwise.cons ?_ (ih hl)
      intro x hx
      rcases (mem_insertDesc key a x l).mp hx with hxa | hxl
      · exact hxa ▸ hab
      · exact hb x hxl

theorem pairwise_sortDesc {α : Type} (key : α → Int) (l : List α) :
    (sortDesc key l).Pairwise (fun x y => key y ≤ key x) := by
  induction l with
  | nil => simp [sortDesc]
  | cons a l ih => exact pairwise_insertDesc key a _ ih

theorem filter_insertDesc_key {α : Type} (key : α → Int) (k : Int) (a : α) (l : List α) :
    (insertDesc key a l).filter (fun x => decide (key x = k)) =
      if key a = k then a :: l.filter (fun x => decide (key x = k))
      else l.filter (fun x => decide (key x = k)) := by
  induction l with
  | nil =>
    by_cases hak : key a = k <;> simp [insertDesc, List.filter, hak]
  | cons b l ih =>
    simp only [insertDesc]
    split
    · rename_i hba
      by_cases hak : key a = k <;> simp [List.filter_cons, hak]
    · rename_i hba
      have hab : key a < key b := lt_of_not_le hba
      by_cases hak : key a = k
      · have hbk : key b ≠ k := by
          intro hbk
          rw [← hak] at hbk
          exact absurd hbk (ne_of_gt hab)
        simp [List.filter_cons, hbk, ih, hak]
      · by_cases hbk : key b = k <;> simp [List.filter_cons, hbk, ih, hak]

theorem filter_sortDesc_key {α : Type} (key : α → Int) (k : Int) (l : List α) :
    (sortDesc key l).filter (fun x => decide (key x = k)) =
      l.filter (fun x => decide (key x = k)) := by
  induction l with
  | nil => simp [sortDesc]
  | cons a l ih =>
    simp only [sortDesc, filter_insertDesc_key, ih]
    by_cases hak : key a = k <;> simp [List.filter_cons, hak]

theorem highestFirst_eq_none_iff {α : Type} (key : α → Int) (l : List α) :
    highestFirst key l = none ↔ l = [] := by
  cases l with
  | nil => simp [highestFirst]
  | cons a l =>
    cases hm : highestFirst key l with
    | none => simp [highestFirst, hm]
    | some m =>
      simp only [highestFirst, hm]
      constructor
      · intro h
        split at h <;> simp at h
      · intro h
        simp at h

theorem highestFirst_mem {α : Type} (key : α → Int) :
    ∀ (l : List α) (a : α), highestFirst key l = some a → a ∈ l := by
  intro l
  induction l with
  | nil => intro a h; simp [highestFirst] at h
  | cons b l ih =>
    intro a h
    cases hm : highestFirst key l with
    | none =>
      simp only [highestFirst, hm] at h
      injection h with h2
      exact h2 ▸ List.mem_cons_self b l
    | some m =>
      simp only [highestFirst, hm] at h
      split at h
      · injection h with h2
        exact List.mem_cons_of_mem b (ih a (h2 ▸ hm))
      · injection h with h2
        exact h2 ▸ List.mem_cons_self b l

theorem highestFirst_le {α : Type} (key : α → Int) :
    ∀ (l : List α) (a : α), highestFirst key l = some a → ∀ b ∈ l, key b ≤ key a := by
  intro l
  induction l with
  | nil => intro a h; simp [highestFirst] at h
  | cons c l ih =>
    intro a h b hb
    cases hm : highestFirst key l with
    | none =>
      have hl : l = [] := (highestFirst_eq_none_iff key l).mp hm
      subst hl
      simp only [highestFirst, hm] at h
      injection h with h2
      rcases List.mem_singleton.mp hb with rfl
      exact le_of_eq (congrArg key h2)
    | some m =>
      simp only [highestFirst, hm] at h
      rcases List.mem_cons.mp hb with rfl | hbl
      · split at h
        · rename_i hcm
          injection h with h2
          exact h2 ▸ le_of_lt hcm
        · injection h with h2
          exact le_of_eq (congrArg key h2)
      · have hbm : key b ≤ key m := ih m hm b hbl
        split at h
        · injection h with h2
          exact h2 ▸ hbm
        · rename_i hcm
          injection h with h2
          exact le_trans hbm (h2 ▸ le_of_not_lt hcm)

theorem head?_sortDesc {α : Type} (key : α → Int) (l : List α) :
    (sortDesc key l).head? = highestFirst key l := by
  induction l with
  | nil => rfl
  | cons a l ih =>
    show (insertDesc key a (sortDesc key l)).head? = _
    cases hs : sortDesc key l with
    | nil =>
      have hl : l = [] := (sortDesc_eq_nil_iff key l).mp hs
      subst hl
      rfl
    | cons b t =>
      have hb : highestFirst key l = some b := by
        rw [← ih, hs]
        rfl
      simp only [highestFirst, hb]
      simp only [insertDesc]
      split
      · rename_i hba
        simp [if_neg (not_lt.mpr hba)]
      · rename_i hba
        simp [if_pos (lt_of_not_le hba)]

theorem jsOr_eq_none_iff {α : Type} (a b : Option α) :
    jsOr a b = none ↔ a = none ∧ b = none := by
  cases a <;> simp [jsOr]


/-! Lemmas about property assignment on the ordered association lists
that model JavaScript objects. -/

theorem lookup_map_assign_ne (t : List (String × String)) (k k₁ v : String)
    (hne : k ≠ k₁) :
    List.lookup k (t.map (fun p => if p.1 == k₁ then (p.1, v) else p)) =
      List.lookup k t := by
  induction t with
  | nil => rfl
  | cons p t ih =>
    obtain ⟨k₂, w⟩ := p
    simp only [List.map_cons]
    by_cases h2 : (k₂ == k₁) = true
    · have hkk2 : (k == k₂) = false := by
        rw [beq_eq_false_iff_ne]
        exact (eq_of_beq h2) ▸ hne
      rw [if_pos h2, List.lookup_cons, List.lookup_cons, hkk2]
      exact ih
    · rw [if_neg h2, List.lookup_cons, List.lookup_cons]
      cases hkk2 : (k == k₂)
      · exact ih
      · rfl

theorem lookup_map_assign_self (t : List (String × String)) (k v : String)
    (hany : t.any (fun p => p.1 == k) = true) :
    List.lookup k (t.map (fun p => if p.1 == k then (p.1, v) else p)) =
      some v := by
  induction t with
  | nil => simp at hany
  | cons p t ih =>
    obtain ⟨k₂, w⟩ := p
    simp only [List.map_cons]
    by_cases h2 : (k₂ == k) = true
    · have hkk2 : (k == k₂) = true := by
        rw [beq_iff_eq]
        exact (eq_of_beq h2).symm
      rw [if_pos h2, List.lookup_cons, hkk2]
    · have hkk2 : (k == k₂) = false := by
        rw [beq_eq_false_iff_ne]
        intro he
        exact h2 (beq_iff_eq.mpr he.symm)
      have hany2 : t.any (fun p => p.1 == k) = true := by
        simp only [List.any_cons, Bool.or_eq_true] at hany
        exact hany.resolve_left h2
      rw [if_neg h2, List.lookup_cons, hkk2]
      exact ih hany2

theorem lookup_assignOne_ne (t : List (String × String)) (k k₁ w : String)
    (hne : k ≠ k₁) :
    List.lookup k (assignOne t (k₁, w)) = List.lookup k t := by
  unfold assignOne
  split
  · exact lookup_map_assign_ne t k k₁ w hne
  · rw [List.lookup_append]
    have h1 : List.lookup k [(k₁, w)] = none := by
      simp [List.lookup, beq_eq_false_iff_ne.mpr hne]
    rw [h1]
    cases List.lookup k t <;> simp [Option.or]

theorem lookup_assignOne_self (t : List (String × String)) (k v : String) :
    List.lookup k (assignOne t (k, v)) = some v := by
  unfold assignOne
  split
  · rename_i hany
    exact lookup_map_assign_self t k v hany
  · rename_i hany
    rw [List.lookup_append]
    have h0 : List.lookup k t = none := by
      rw [List.lookup_eq_none_iff]
      intro p hp
      have hall : ¬((p.1 == k) = true) := by
        intro hpk
        exact hany (List.any_eq_true.mpr ⟨p, hp, hpk⟩)
      have hne : k ≠ p.1 := fun he => hall (beq_iff_eq.mpr he.symm)
      simp [bne, hne]
    rw [h0]
    simp [List.lookup]

theorem lookup_objAssign_notin (s : List (String × String))
    (t : List (String × String)) (k : String) (h : ∀ p ∈ s, p.1 ≠ k) :
    List.lookup k (objAssign t s) = List.lookup k t := by
  induction s generalizing t with
  | nil => rfl
  | cons p s ih =>
    obtain ⟨k₁, w⟩ := p
    show List.lookup k (objAssign (assignOne t (k₁, w)) s) = _
    rw [ih _ (fun q hq => h q (List.mem_cons_of_mem _ hq))]
    exact lookup_assignOne_ne t k k₁ w
      (fun he => h (k₁, w) (List.mem_cons_self _ _) (by simpa using he.symm))

theorem lookupLast_cons (k : String) (p : String × String)
    (s : List (String × String)) :
    lookupLast k (p :: s) =
      (lookupLast k s).or (if k == p.1 then some p.2 else none) := by
  unfold lookupLast
  rw [List.reverse_cons, List.lookup_append]
  obtain ⟨k₁, w⟩ := p
  by_cases hk : (k == k₁) = true <;> simp [List.lookup, hk]

theorem lookup_objAssign_last (s : List (String × String))
    (t : List (String × String)) (k v : String)
    (h : lookupLast k s = some v) :
    List.lookup k (objAssign t s) = some v := by
  induction s generalizing t with
  | nil => simp [lookupLast] at h
  | cons p s ih =>
    obtain ⟨k₁, w⟩ := p
    rw [lookupLast_cons] at h
    show List.lookup k (objAssign (assignOne t (k₁, w)) s) = some v
    cases hs : lookupLast k s with
    | some x =>
      rw [hs] at h
      simp only [Option.or_some, Option.some.injEq] at h
      exact ih (assignOne t (k₁, w)) (hs.trans (by rw [h]))
    | none =>
      rw [hs] at h
      simp only [Option.none_or] at h
      have hk : (k == k₁) = true := by
        by_contra hk
        simp [hk] at h
      have hwv : w = v := by
        simpa [hk] using h
      have hnotin : ∀ p ∈ s, p.1 ≠ k := by
        intro q hq he
        have h1 := List.lookup_eq_none_iff.mp hs q (List.mem_reverse.mpr hq)
        simp [bne, he] at h1
      rw [lookup_objAssign_notin s _ k hnotin]
      have hkk : k = k₁ := eq_of_beq hk
      subst hkk
      subst hwv
      exact lookup_assignOne_self t k w

theorem forwardHeaders_congr (decode : String → Option (List (String × String)))
    (req1 req2 : StreamReq)
    (hr : List.lookup "range" req1.reqHeaders = List.lookup "range" req2.reqHeaders)
    (he : extraHeadersOf decode req1 = extraHeadersOf decode req2) :
    forwardHeaders decode req1 = forwardHeaders decode req2 := by
  unfold forwardHeaders
  rw [hr, he]

/-! Helper lemmas about normalization and the selection predicates. -/

theorem truthyStr_ne_some_empty (o : Option String) : truthyStr o ≠ some "" := by
  cases o with
  | none => simp [truthyStr]
  | some s =>
    simp only [truthyStr]
    split
    · simp
    · rename_i h
      simp [h]

theorem normalizeFormat_codecs_ne_empty (r : RawFormat) :
    (normalizeFormat r).acodec ≠ some "" ∧ (normalizeFormat r).vcodec ≠ some "" :=
  ⟨truthyStr_ne_some_empty r.acodec, truthyStr_ne_some_empty r.vcodec⟩

theorem jsOr_eq_some_iff {α : Type} (a b : Option α) (x : α) :
    jsOr a b = some x ↔ a = some x ∨ (a = none ∧ b = some x) := by
  cases a <;> simp [jsOr]

theorem truthyInt_eq_some (o : Option Int) (n : Int) :
    truthyInt o = some n ↔ o = some n ∧ n ≠ 0 := by
  cases o with
  | none => simp [truthyInt]
  | some m =>
    by_cases hm : m = 0
    · subst hm
      simp only [truthyInt, if_pos rfl]
      constructor
      · intro h
        cases h
      · rintro ⟨h1, h2⟩
        injection h1 with h1
        exact absurd h1.symm h2
    · simp only [truthyInt, if_neg hm, Option.some.injEq]
      constructor
      · intro h
        exact ⟨h, h ▸ hm⟩
      · rintro ⟨h1, _⟩
        exact h1

theorem mem_of_head?_sortDesc {α : Type} (key : α → Int) (l : List α) (x : α)
    (h : (sortDesc key l).head? = some x) : x ∈ l :=
  highestFirst_mem key l x ((head?_sortDesc key l).symm.trans h)

theorem cappedCombinedPred_eq (maxH : Int) (f : NormalizedFormat) :
    cappedCombinedPred maxH f = (heightAtMost maxH f && isCombinedB f) := by
  unfold cappedCombinedPred heightAtMost isCombinedB
  cases truthyInt f.height <;> simp [Bool.and_assoc]

theorem cappedVideoPred_eq (maxH : Int) (f : NormalizedFormat) :
    cappedVideoPred maxH f = (heightAtMost maxH f && hasVideoB f) := by
  unfold cappedVideoPred heightAtMost hasVideoB
  cases truthyInt f.height <;> simp

theorem qualityCapped_eq (fs : List NormalizedFormat) (maxH : Int) :
    qualityCapped fs maxH =
      jsOr (highestFirst hKey (fs.filter (fun f => heightAtMost maxH f && isCombinedB f)))
        (highestFirst hKey (fs.filter (fun f => heightAtMost maxH f && hasVideoB f))) := by
  unfold qualityCapped
  rw [head?_sortDesc, head?_sortDesc,
    List.filter_congr (fun f _ => cappedCombinedPred_eq maxH f),
    List.filter_congr (fun f _ => cappedVideoPred_eq maxH f)]

theorem cappedPred_height {maxH : Int} {f : NormalizedFormat}
    (h : cappedCombinedPred maxH f = true ∨ cappedVideoPred maxH f = true) :
    ∃ n : Int, f.height = some n ∧ n ≠ 0 ∧ n ≤ maxH := by
  cases hth : truthyInt f.height with
  | none =>
    rcases h with h | h <;> simp [cappedCombinedPred, cappedVideoPred, hth] at h
  | some n =>
    obtain ⟨h1, h2⟩ := (truthyInt_eq_some f.height n).mp hth
    refine ⟨n, h1, h2, ?_⟩
    rcases h with h | h <;>
      simp only [cappedCombinedPred, cappedVideoPred, hth, Bool.and_eq_true,
        decide_eq_true_eq] at h
    · exact h.1.1
    · exact h.1

/-! Claim theorems. -/

/-- C1, counterexample: the claim says a format with no codec
information at all (both fields absent) lies in none of the three class
buckets.  On the code, the normalization of `rawNoCodec` (whose `acodec`
and `vcodec` are both absent, hence `null` after normalization) is a
member of the combined bucket — and in fact of all three buckets —
because every classifier only compares against the literal `"none"`. -/
theorem c1_buckets_counterexample :
    normalizeFormat rawNoCodec ∈ videoCombined (normalizeFormats [rawNoCodec]) ∧
    normalizeFormat rawNoCodec ∈ videoOnly (normalizeFormats [rawNoCodec]) ∧
    normalizeFormat rawNoCodec ∈ audioOnly (normalizeFormats [rawNoCodec]) ∧
    (normalizeFormat rawNoCodec).vcodec = none ∧
    (normalizeFormat rawNoCodec).acodec = none ∧
    ¬ presentNotNone (normalizeFormat rawNoCodec).vcodec ∧
    ¬ presentNotNone (normalizeFormat rawNoCodec).acodec := by
  refine ⟨by decide, by decide, by decide, by decide, by decide, ?_, ?_⟩
  · rintro ⟨s, hs, _⟩
    exact Option.noConfusion hs
  · rintro ⟨s, hs, _⟩
    rw [show (normalizeFormat rawNoCodec).acodec = none from rfl] at hs
    exact Option.noConfusion hs

/-- C1, amended: for every normalized format list, a format is in the
combined bucket iff `vcodec ≠ "none"` and `acodec ≠ "none"` where an
absent codec field also counts as "not none"; in the video-only bucket
iff `vcodec ≠ "none"` and `acodec` absent or `"none"`; in the audio-only
bucket iff `acodec ≠ "none"` and `vcodec` absent or `"none"`.  So a
format with no codec information at all lies in all three buckets (not
in none of them), while the unfiltered normalized list keeps every
input format. -/
theorem c1_buckets_amended (rs : List RawFormat) :
    (∀ f, f ∈ videoCombined (normalizeFormats rs) ↔
      f ∈ normalizeFormats rs ∧ f.vcodec ≠ some "none" ∧ f.acodec ≠ some "none") ∧
    (∀ f, f ∈ videoOnly (normalizeFormats rs) ↔
      f ∈ normalizeFormats rs ∧ f.vcodec ≠ some "none" ∧
        (f.acodec = none ∨ f.acodec = some "none")) ∧
    (∀ f, f ∈ audioOnly (normalizeFormats rs) ↔
      f ∈ normalizeFormats rs ∧ f.acodec ≠ some "none" ∧
        (f.vcodec = none ∨ f.vcodec = some "none")) ∧
    (normalizeFormats rs).length = rs.length := by
  refine ⟨?_, ?_, ?_, by simp [normalizeFormats]⟩
  · intro f
    rw [videoCombined, List.mem_filter]
    simp [isCombinedB]
  · intro f
    rw [videoOnly, List.mem_filter]
    constructor
    · rintro ⟨hf, hp⟩
      refine ⟨hf, ?_⟩
      rcases List.mem_map.mp hf with ⟨r, _, rfl⟩
      have hne := (normalizeFormat_codecs_ne_empty r).1
      simp only [isVideoOnlyB, jsFalsyStr, Bool.and_eq_true, Bool.or_eq_true,
        decide_eq_true_eq] at hp
      refine ⟨hp.1, ?_⟩
      rcases hp.2 with (h | h) | h
      · exact Or.inl h
      · exact absurd h hne
      · exact Or.inr h
    · rintro ⟨hf, h1, h2⟩
      refine ⟨hf, ?_⟩
      simp only [isVideoOnlyB, jsFalsyStr, Bool.and_eq_true, Bool.or_eq_true,
        decide_eq_true_eq]
      refine ⟨h1, ?_⟩
      rcases h2 with h2 | h2
      · exact Or.inl (Or.inl h2)
      · exact Or.inr h2
  · intro f
    rw [audioOnly, List.mem_filter]
    constructor
    · rintro ⟨hf, hp⟩
      refine ⟨hf, ?_⟩
      rcases List.mem_map.mp hf with ⟨r, _, rfl⟩
      have hne := (normalizeFormat_codecs_ne_empty r).2
      simp only [isAudioOnlyB, jsFalsyStr, Bool.and_eq_true, Bool.or_eq_true,
        decide_eq_true_eq] at hp
      refine ⟨hp.1, ?_⟩
      rcases hp.2 with h | (h | h)
      · exact Or.inr h
      · exact Or.inl h
      · exact absurd h hne
    · rintro ⟨hf, h1, h2⟩
      refine ⟨hf, ?_⟩
      simp only [isAudioOnlyB, jsFalsyStr, Bool.and_eq_true, Bool.or_eq_true,
        decide_eq_true_eq]
      refine ⟨h1, ?_⟩
      rcases h2 with h2 | h2
      · exact Or.inr (Or.inl h2)
      · exact Or.inl h2

/-- C2, counterexample: the claim says that under the best-effort policy
of `/api/download` (no numeric quality) the chosen candidate is the
first element of the unfiltered normalized list when neither a combined
nor a video-only format exists, and is null exactly when the list is
empty.  On a list holding a single audio-only format, the `/api/extract`
selector (`directPlayable`) does fall back to the first element, but the
`/api/download` best-effort branch yields no candidate at all, although
the list is non-empty: the download branch has no unfiltered-list
fallback. -/
theorem c2_best_effort_counterexample :
    bestEffortDownload (normalizeFormats [rawAudioOnly]) = none ∧
    normalizeFormats [rawAudioOnly] ≠ [] ∧
    (normalizeFormats [rawAudioOnly]).head? = some (normalizeFormat rawAudioOnly) ∧
    directPlayable (normalizeFormats [rawAudioOnly]) = some (normalizeFormat rawAudioOnly) := by
  refine ⟨by decide, by decide, by decide, by decide⟩

/-- C2, amended: the `/api/extract` selector (`directPlayable`) picks
the highest-height combined format (first among equal heights), else the
highest-height video-only format, else the first element of the full
unfiltered normalized list, and is null exactly when the list is empty.
The `/api/download` best-effort branch picks the highest-height combined
format, else the highest-height format with `vcodec ≠ "none"`, and
otherwise yields no candidate even when the list is non-empty — it never
falls back to the unfiltered list. -/
theorem c2_best_effort_amended (rs : List RawFormat) :
    directPlayable (normalizeFormats rs) =
      jsOr (highestFirst hKey (videoCombined (normalizeFormats rs)))
        (jsOr (highestFirst hKey (videoOnly (normalizeFormats rs)))
          (normalizeFormats rs).head?) ∧
    bestEffortDownload (normalizeFormats rs) =
      jsOr (highestFirst hKey (videoCombined (normalizeFormats rs)))
        (highestFirst hKey ((normalizeFormats rs).filter hasVideoB)) ∧
    (directPlayable (normalizeFormats rs) = none ↔ normalizeFormats rs = []) ∧
    (bestEffortDownload (normalizeFormats rs) = none ↔
      videoCombined (normalizeFormats rs) = [] ∧
        (normalizeFormats rs).filter hasVideoB = []) := by
  refine ⟨?_, ?_, ?_, ?_⟩
  · unfold directPlayable sortByHeightDesc
    rw [head?_sortDesc, head?_sortDesc]
  · unfold bestEffortDownload videoCombined
    rw [head?_sortDesc, head?_sortDesc]
  · unfold directPlayable sortByHeightDesc
    rw [jsOr_eq_none_iff, jsOr_eq_none_iff]
    simp only [List.head?_eq_none_iff, sortDesc_eq_nil_iff, and_assoc]
    constructor
    · exact fun h => h.2.2
    · intro h
      simp [h, videoCombined, videoOnly]
  · unfold bestEffortDownload videoCombined
    rw [jsOr_eq_none_iff]
    simp [sortDesc_eq_nil_iff]

/-- C3: under the quality-capped policy of `/api/download` (numeric
ceiling `maxH`) the selection is the highest-height combined format with
a known height at most `maxH` (first among equal heights); failing that,
the highest-height format with a known height at most `maxH` that has
video (`vcodec ≠ "none"`, audio may be absent); and when neither exists
the chosen candidate is empty and the endpoint responds with the
error status 500 ("no match for requested quality") instead of silently
picking some format.  The quality dispatch routes every quality string
other than the falsy one and `"best"` to this policy. -/
theorem c3_quality_capped (rs : List RawFormat) (maxH : Int) :
    qualityCapped (normalizeFormats rs) maxH =
      jsOr (highestFirst hKey ((normalizeFormats rs).filter
          (fun f => heightAtMost maxH f && isCombinedB f)))
        (highestFirst hKey ((normalizeFormats rs).filter
          (fun f => heightAtMost maxH f && hasVideoB f))) ∧
    (qualityCapped (normalizeFormats rs) maxH = none →
      downloadStatus (qualityCapped (normalizeFormats rs) maxH) = 500) ∧
    (∀ (parseNum : String → Int) (q : String), q ≠ "" → q ≠ "best" →
      downloadChosen parseNum (some q) (normalizeFormats rs) =
        qualityCapped (normalizeFormats rs) (parseNum q)) := by
  refine ⟨qualityCapped_eq _ _, ?_, ?_⟩
  · intro h
    rw [h]
    rfl
  · intro parseNum q h1 h2
    simp [downloadChosen, h1, h2]

/-- C3, witness: with `maxH = 200` against combined formats at heights
360 and 480 the quality-capped selection finds no match and the endpoint
responds 500, and an explicit numeric quality string is routed to the
quality-capped policy. -/
theorem c3_quality_capped_witness :
    downloadStatus (qualityCapped (normalizeFormats [raw360, raw480]) 200) = 500 ∧
    downloadChosen (fun _ => 200) (some "200") (normalizeFormats [raw360, raw480]) =
      qualityCapped (normalizeFormats [raw360, raw480]) 200 :=
  ⟨(c3_quality_capped [raw360, raw480] 200).2.1 (by decide),
   (c3_quality_capped [raw360, raw480] 200).2.2 (fun _ => 200) "200"
     (by decide) (by decide)⟩

/-- C4: the stream relay copies an upstream response header to the
client response exactly when its lowercased name is not one of the
eight hop-by-hop header names, and the copy is verbatim (same name,
same value). -/
theorem c4_hop_by_hop (up : List (String × String)) (n v : String) :
    (n, v) ∈ relayResponseHeaders up ↔
      ((n, v) ∈ up ∧ hopByHop.contains n.toLower = false) := by
  rw [relayResponseHeaders, List.mem_filter]
  simp

/-- C5: the `formats` field of the response is the concatenation of at
most 8 combined formats, at most 8 video-only formats and at most 4
audio-only formats, in that order, where the combined and video-only
buckets are sorted descending by height (missing height as 0: the key
`hKey`), the sort being stable — for every height value the formats of
that height appear in their original relative order from the normalized
list. -/
theorem c5_response_formats (rs : List RawFormat) :
    responseFormats (normalizeFormats rs) =
      (sortByHeightDesc (videoCombined (normalizeFormats rs))).take 8
        ++ (sortByHeightDesc (videoOnly (normalizeFormats rs))).take 8
        ++ (audioOnly (normalizeFormats rs)).take 4 ∧
    (sortByHeightDesc (videoCombined (normalizeFormats rs))).Pairwise
      (fun a b => hKey b ≤ hKey a) ∧
    (sortByHeightDesc (videoOnly (normalizeFormats rs))).Pairwise
      (fun a b => hKey b ≤ hKey a) ∧
    (∀ k : Int,
      (sortByHeightDesc (videoCombined (normalizeFormats rs))).filter
          (fun f => decide (hKey f = k)) =
        (videoCombined (normalizeFormats rs)).filter (fun f => decide (hKey f = k))) ∧
    (∀ k : Int,
      (sortByHeightDesc (videoOnly (normalizeFormats rs))).filter
          (fun f => decide (hKey f = k)) =
        (videoOnly (normalizeFormats rs)).filter (fun f => decide (hKey f = k))) :=
  ⟨rfl, pairwise_sortDesc hKey _, pairwise_sortDesc hKey _,
   fun k => filter_sortDesc_key hKey k _, fun k => filter_sortDesc_key hKey k _⟩

/-- C7: a `/api/download` request with quality equal to the literal
string `"best"` produces exactly the same selection as one with the
quality field omitted, for every numeric conversion function — so
`"best"` is never handed to the numeric conversion at all. -/
theorem c7_best_equals_omitted (parseNum : String → Int) (rs : List RawFormat) :
    downloadChosen parseNum (some "best") (normalizeFormats rs) =
      downloadChosen parseNum none (normalizeFormats rs) := by
  simp [downloadChosen]

/-- C8, counterexample: the claim says both `/api/extract` and
`/api/download` respond 408 when the extraction call exceeds its time
budget.  On a timeout (`error.killed` true) `/api/extract` does respond
408, but the `/api/download` catch branch responds 500, not 408. -/
theorem c8_timeout_counterexample :
    downloadCatchStatus true = 500 ∧
    downloadCatchStatus true ≠ 408 ∧
    extractCatchStatus true = 408 := by
  refine ⟨by decide, by decide, by decide⟩

/-- C8, amended: `/api/extract` responds 408 exactly when the
extraction call was killed by its timeout and 500 on every other
extraction failure, while `/api/download` responds 500 for every
extraction failure, timeout included. -/
theorem c8_timeout_amended (killed : Bool) :
    (extractCatchStatus killed = 408 ↔ killed = true) ∧
    extractCatchStatus false = 500 ∧
    downloadCatchStatus killed = 500 := by
  cases killed <;> simp [extractCatchStatus, downloadCatchStatus]

/-- C6, counterexample: the claim says a `/api/stream` request whose
`remoteUrl` is not parseable is answered with a client-error (4xx)
status.  On the code, an unparseable `remoteUrl` throws inside the try
block and the catch responds 500 — a server-error status — although
still without ever starting the outbound fetch.  The environment
instantiates the URL parser with one that rejects the given string, as
`new URL("http://[")` does. -/
theorem c6_reject_counterexample :
    (streamHandler (fun _ => false) (fun _ => none) 200 [] reqBadUrl).status = 500 ∧
    ¬(400 ≤ (streamHandler (fun _ => false) (fun _ => none) 200 [] reqBadUrl).status ∧
      (streamHandler (fun _ => false) (fun _ => none) 200 [] reqBadUrl).status < 500) ∧
    (streamHandler (fun _ => false) (fun _ => none) 200 [] reqBadUrl).fetchCalled = false := by
  refine ⟨by decide, by decide, by decide⟩

/-- C6, amended: a `/api/stream` request with an absent (or falsy)
`remoteUrl` is answered 400, and one whose `remoteUrl` the URL parser
rejects is answered 500; in both cases the outbound fetch is never
started, so a malformed `remoteUrl` is indeed rejected before any
network call — just with a server-error status rather than a
client-error one. -/
theorem c6_reject_amended (parse : String → Bool)
    (decode : String → Option (List (String × String)))
    (us : Nat) (uh : List (String × String)) (req : StreamReq) :
    ((req.remoteUrl = none ∨ req.remoteUrl = some "") →
      (streamHandler parse decode us uh req).status = 400 ∧
      (streamHandler parse decode us uh req).fetchCalled = false) ∧
    (∀ u, req.remoteUrl = some u → u ≠ "" → parse u = false →
      (streamHandler parse decode us uh req).status = 500 ∧
      (streamHandler parse decode us uh req).fetchCalled = false) := by
  constructor
  · rintro (h | h) <;> simp [streamHandler, h]
  · intro u hu hne hp
    simp [streamHandler, hu, hne, hp]

/-- C6, witness: a request without `remoteUrl` is answered 400 and a
request with an unparseable `remoteUrl` is answered 500, neither
starting a fetch. -/
theorem c6_reject_witness :
    ((streamHandler (fun _ => false) (fun _ => none) 200 [] reqNoUrl).status = 400 ∧
     (streamHandler (fun _ => false) (fun _ => none) 200 [] reqNoUrl).fetchCalled = false) ∧
    ((streamHandler (fun _ => false) (fun _ => none) 200 [] reqMalformed).status = 500 ∧
     (streamHandler (fun _ => false) (fun _ => none) 200 [] reqMalformed).fetchCalled = false) :=
  ⟨(c6_reject_amended (fun _ => false) (fun _ => none) 200 [] reqNoUrl).1 (Or.inl rfl),
   (c6_reject_amended (fun _ => false) (fun _ => none) 200 [] reqMalformed).2
     "://bad" rfl (by decide) rfl⟩

/-- C9: under the quality-capped policy a chosen format always has a
present, non-zero height at most `maxH` (both the combined search and
the video fallback demand a truthy height), and when no format of the
list has such a height the selection is empty and `/api/download`
responds with the 500 no-match error, even if codec-eligible formats
without a known height exist. -/
theorem c9_capped_needs_height (rs : List RawFormat) (maxH : Int) :
    (∀ f, qualityCapped (normalizeFormats rs) maxH = some f →
      ∃ n : Int, f.height = some n ∧ n ≠ 0 ∧ n ≤ maxH) ∧
    ((∀ f ∈ normalizeFormats rs, ∀ n : Int, f.height = some n → n = 0 ∨ ¬(n ≤ maxH)) →
      qualityCapped (normalizeFormats rs) maxH = none ∧
      downloadStatus (qualityCapped (normalizeFormats rs) maxH) = 500) := by
  constructor
  · intro f hf
    unfold qualityCapped at hf
    rcases (jsOr_eq_some_iff _ _ _).mp hf with h | ⟨_, h⟩
    · have hm := mem_of_head?_sortDesc hKey _ f h
      exact cappedPred_height (Or.inl (List.mem_filter.mp hm).2)
    · have hm := mem_of_head?_sortDesc hKey _ f h
      exact cappedPred_height (Or.inr (List.mem_filter.mp hm).2)
  · intro H
    have h1 : (normalizeFormats rs).filter (cappedCombinedPred maxH) = [] := by
      rw [List.filter_eq_nil_iff]
      intro f hf hp
      obtain ⟨n, hn, hn0, hnm⟩ := cappedPred_height (Or.inl hp)
      rcases H f hf n hn with h | h
      · exact hn0 h
      · exact h hnm
    have h2 : (normalizeFormats rs).filter (cappedVideoPred maxH) = [] := by
      rw [List.filter_eq_nil_iff]
      intro f hf hp
      obtain ⟨n, hn, hn0, hnm⟩ := cappedPred_height (Or.inr hp)
      rcases H f hf n hn with h | h
      · exact hn0 h
      · exact h hnm
    have hnone : qualityCapped (normalizeFormats rs) maxH = none := by
      unfold qualityCapped
      rw [h1, h2]
      rfl
    exact ⟨hnone, by rw [hnone]; rfl⟩

/-- C9, witness: a combined format of height 50 is selected under the
cap 100 and indeed carries a height at most 100, while a list holding
only a combined format without height yields no match and the 500
response under the same cap. -/
theorem c9_capped_needs_height_witness :
    (∃ n : Int, (normalizeFormat raw50).height = some n ∧ n ≠ 0 ∧ n ≤ 100) ∧
    qualityCapped (normalizeFormats [rawNoHeight]) 100 = none ∧
    downloadStatus (qualityCapped (normalizeFormats [rawNoHeight]) 100) = 500 := by
  have hB := (c9_capped_needs_height [rawNoHeight] 100).2 (by
    intro f hf n hn
    have hf1 : f = normalizeFormat rawNoHeight := by
      simpa [normalizeFormats] using hf
    have hh : (normalizeFormat rawNoHeight).height = none := rfl
    rw [hf1, hh] at hn
    exact Option.noConfusion hn)
  exact ⟨(c9_capped_needs_height [raw50] 100).1 (normalizeFormat raw50) (by decide),
    hB.1, hB.2⟩

/-- C10: the header object the stream relay passes to the outbound
fetch is a function of only the inbound `range` header, the `remoteUrl`
and the decoded `h` bundle — two requests agreeing on those three
produce identical outbound headers, whatever their other inbound
headers are — and when the decoded bundle itself carries a `range` key
its (last) value wins over the forwarded inbound `range` header. -/
theorem c10_outbound_headers (parse : String → Bool)
    (decode : String → Option (List (String × String)))
    (us : Nat) (uh : List (String × String)) (req1 req2 : StreamReq) :
    (req1.remoteUrl = req2.remoteUrl →
      List.lookup "range" req1.reqHeaders = List.lookup "range" req2.reqHeaders →
      extraHeadersOf decode req1 = extraHeadersOf decode req2 →
      (streamHandler parse decode us uh req1).outboundHeaders =
        (streamHandler parse decode us uh req2).outboundHeaders) ∧
    (∀ v, lookupLast "range" (extraHeadersOf decode req1) = some v →
      List.lookup "range" (forwardHeaders decode req1) = some v) := by
  constructor
  · intro hu hr he
    unfold streamHandler
    rw [hu]
    cases h2 : req2.remoteUrl with
    | none => rfl
    | some u =>
      by_cases hu0 : u = ""
      · simp [hu0]
      · by_cases hp : parse u = true
        · simp [hu0, hp, forwardHeaders_congr decode req1 req2 hr he]
        · simp [hu0, hp]
  · intro v hv
    unfold forwardHeaders
    exact lookup_objAssign_last _ _ _ _ hv

/-- C10, witness: two concrete requests sharing `remoteUrl`, the same
inbound `range` value and the same `h` parameter but differing in their
other inbound headers produce identical outbound header objects, and
the decoded bundle's own `range` value `"bytes=5-9"` overrides the
forwarded inbound `range` header `"bytes=0-1"`. -/
theorem c10_outbound_headers_witness :
    (streamHandler (fun _ => true) decodeFix 200 [] reqRangeA).outboundHeaders =
      (streamHandler (fun _ => true) decodeFix 200 [] reqRangeB).outboundHeaders ∧
    List.lookup "range" (forwardHeaders decodeFix reqRangeA) = some "bytes=5-9" :=
  ⟨(c10_outbound_headers (fun _ => true) decodeFix 200 [] reqRangeA reqRangeB).1
      (by decide) (by decide) (by decide),
   (c10_outbound_headers (fun _ => true) decodeFix 200 [] reqRangeA reqRangeB).2
      "bytes=5-9" (by decide)⟩

end Server
